import Mathlib

/-!
# Verification of the crontinuous scheduling core

A shallow embedding, in Lean 4, of the `crontinuous` Go package
(`crontinuous.go`, `scan_cron.go`, `report_cron.go`, `cron_store.go`):
a service that stores "scan" and "report" cron entries in per-type
in-memory tables, persists each table through a store interface, and
registers jobs with an external cron scheduler.

Modelling conventions:

* Go maps (`map[string]ScanEntry`, ...) are association lists
  `List (String × α)` with lookup/insert/erase functions mirroring Go
  map indexing, assignment and `delete`.  Go map iteration order is
  unspecified; here it is the list order.  All maps manipulated by the
  code have pairwise-distinct keys, so every property proved below is
  order-independent.
* The external cron library (`github.com/manelmontilla/cron`) is outside
  this repository.  `cron.ParseStandard` is an abstract parameter
  `parse : String → Bool` saying which cron-spec strings parse; the
  opaque `cron.Schedule` value is represented by the (successfully
  parsed) spec string itself.  The scheduler (`Schedule`, `RemoveJob`,
  `Start`) is recorded as a trace of calls (`cronCalls`), so "no job was
  registered" is "no call was appended to the trace".
* The persistence stores (`ScanCronStore`/`ReportCronStore`) are
  interfaces; a call to `SaveScanEntries`/`SaveReportEntries` either
  succeeds (and the persisted copy becomes the given table) or fails.
  Each write operation takes a `saveOk : Bool` telling whether its
  persistence call succeeds; a failing call returns
  `CronError.persistenceFailure` (standing for the bubbled-up store
  error) and leaves the persisted copy unchanged.
* Go errors are the `CronError` inductive; fallible functions return
  `Except CronError α`.  Functions that both mutate the receiver and
  return a value return a pair `Except CronError α × Crontinuous`.
* `CronType` is an `Int` (Go `type CronType int`), with
  `ScanCronType = 0` and `ReportCronType = 1`, so that an unrecognized
  tag is representable, as in Go.
-/

namespace Crontinuous

/-- Association-list lookup, mirroring Go map indexing `m[k]`. -/
def mapLookup {α : Type} : List (String × α) → String → Option α
  | [], _ => none
  | (k', v) :: rest, k => if k' = k then some v else mapLookup rest k

/-- Association-list insert, mirroring Go map assignment `m[k] = v`:
replaces the first binding of `k` if present, otherwise appends. -/
def mapInsert {α : Type} : List (String × α) → String → α → List (String × α)
  | [], k, v => [(k, v)]
  | (k', v') :: rest, k, v =>
    if k' = k then (k, v) :: rest else (k', v') :: mapInsert rest k v

/-- Association-list erase, mirroring Go `delete(m, k)`. -/
def mapErase {α : Type} : List (String × α) → String → List (String × α)
  | [], _ => []
  | (k', v) :: rest, k => if k' = k then rest else (k', v) :: mapErase rest k

/-- The keys of an association list are pairwise distinct (the invariant
every Go map enjoys). -/
def mapKeysNodup {α : Type} (m : List (String × α)) : Prop :=
  (m.map Prod.fst).Nodup

/-- `Config` from `crontinuous.go` (the `Bucket` field only feeds the S3
store and carries no logic, so it is omitted). -/
structure Config where
  enableTeamsWhitelistScan : Bool
  teamsWhitelistScan : List String
  enableTeamsWhitelistReport : Bool
  teamsWhitelistReport : List String
deriving DecidableEq, Repr

/-- `ScanEntry` from `scan_cron.go`. -/
structure ScanEntry where
  programID : String
  teamID : String
  cronSpec : String
deriving DecidableEq, Repr

/-- `ReportEntry` from `report_cron.go`. -/
structure ReportEntry where
  teamID : String
  cronSpec : String
deriving DecidableEq, Repr

/-- The `CronEntry` interface of `crontinuous.go`.  Its only
implementors in the package are `ScanEntry` and `ReportEntry`, so a Go
interface value is one of the two variants. -/
inductive CronEntry where
  | scan (e : ScanEntry)
  | report (e : ReportEntry)
deriving DecidableEq, Repr

/-- `GetID`: `ScanEntry.GetID` returns `ProgramID`,
`ReportEntry.GetID` returns `TeamID`. -/
def CronEntry.getID : CronEntry → String
  | .scan e => e.programID
  | .report e => e.teamID

/-- `GetCronSpec` of both entry variants. -/
def CronEntry.getCronSpec : CronEntry → String
  | .scan e => e.cronSpec
  | .report e => e.cronSpec

/-- `type CronType int`; `ScanCronType = iota = 0`, `ReportCronType = 1`. -/
abbrev CronType := Int

def ScanCronType : CronType := 0

def ReportCronType : CronType := 1

/-- The package's error values, plus `persistenceFailure` standing for
any error bubbled up from the store and `parseFailure` for the raw
`cron.ParseStandard` error that `Start` propagates unmapped. -/
inductive CronError where
  | scheduleNotFound
  | malformedSchedule
  | malformedEntry
  | invalidCronType
  | teamNotWhitelisted
  | persistenceFailure
  | parseFailure
deriving DecidableEq, Repr

/-- A `cron.Job`: either a `scanJob` (runs `CreateScan(programID,
teamID)`) or a `reportJob` (runs `SendReport(teamID)`). -/
inductive CronJob where
  | scanJob (programID teamID : String)
  | reportJob (teamID : String)
deriving DecidableEq, Repr

/-- `cronJobSchedule` from `crontinuous.go`: a schedule (the parsed spec
string), the job, and the registration id. -/
structure CronJobSchedule where
  schedule : String
  job : CronJob
  id : String
deriving DecidableEq, Repr

/-- A call made to the external cron scheduler
(`c.cron.Schedule`, `c.cron.RemoveJob`, `c.cron.Start`). -/
inductive SchedulerCall where
  | schedule (c : CronJobSchedule)
  | removeJob (id : String)
  | start
deriving DecidableEq, Repr

/-- `cronEntryWithSchedule` from `crontinuous.go`. -/
structure CronEntryWithSchedule where
  entry : CronEntry
  schedule : String
  overwriteEntry : Bool
deriving DecidableEq, Repr

/-- The observable state of a `Crontinuous` value: the two in-memory
tables, the persisted copy each store holds, and the trace of calls made
to the cron scheduler. -/
structure State where
  config : Config
  scanEntries : List (String × ScanEntry)
  reportEntries : List (String × ReportEntry)
  persistedScan : List (String × ScanEntry)
  persistedReport : List (String × ReportEntry)
  cronCalls : List SchedulerCall
deriving DecidableEq, Repr

/-- `NewCrontinuous`: fresh empty tables (the store's initial persisted
blobs are taken empty as well). -/
def newCrontinuous (cfg : Config) : State :=
  { config := cfg
    scanEntries := []
    reportEntries := []
    persistedScan := []
    persistedReport := []
    cronCalls := [] }

/-- `isTeamWhitelisted` from `crontinuous.go`. -/
def isTeamWhitelisted (cfg : Config) (typ : CronType) (teamID : String) : Bool :=
  let enable :=
    if typ = ScanCronType then cfg.enableTeamsWhitelistScan
    else if typ = ReportCronType then cfg.enableTeamsWhitelistReport
    else false
  let whitelist :=
    if typ = ScanCronType then cfg.teamsWhitelistScan
    else if typ = ReportCronType then cfg.teamsWhitelistReport
    else []
  if !enable then true
  else whitelist.contains teamID

/-- `saveScanEntry` from `scan_cron.go`: type-assert to `ScanEntry`
(else `ErrMalformedEntry`), upsert into the scan table, persist (a store
failure is returned with the table already mutated), then the whitelist
check decides between returning a job and `errTeamNotWhitelisted`. -/
def saveScanEntry (c : State) (saveOk : Bool) (entry : CronEntry) :
    Except CronError CronJob × State :=
  match entry with
  | .scan scanEntry =>
    let entries' := mapInsert c.scanEntries scanEntry.programID scanEntry
    let c' := { c with scanEntries := entries' }
    if saveOk then
      let c'' := { c' with persistedScan := entries' }
      if isTeamWhitelisted c.config ScanCronType scanEntry.teamID then
        (.ok (.scanJob scanEntry.programID scanEntry.teamID), c'')
      else
        (.error .teamNotWhitelisted, c'')
    else
      (.error .persistenceFailure, c')
  | .report _ => (.error .malformedEntry, c)

/-- `saveReportEntry` from `report_cron.go`, mirror of `saveScanEntry`. -/
def saveReportEntry (c : State) (saveOk : Bool) (entry : CronEntry) :
    Except CronError CronJob × State :=
  match entry with
  | .report reportEntry =>
    let entries' := mapInsert c.reportEntries reportEntry.teamID reportEntry
    let c' := { c with reportEntries := entries' }
    if saveOk then
      let c'' := { c' with persistedReport := entries' }
      if isTeamWhitelisted c.config ReportCronType reportEntry.teamID then
        (.ok (.reportJob reportEntry.teamID), c'')
      else
        (.error .teamNotWhitelisted, c'')
    else
      (.error .persistenceFailure, c')
  | .scan _ => (.error .malformedEntry, c)

/-- `SaveEntry` from `crontinuous.go`: parse the spec (else
`ErrMalformedSchedule`), dispatch on the type tag (default:
`ErrInvalidCronType`), map `errTeamNotWhitelisted` to success without
scheduling, and on success register the job under the entry's id. -/
def saveEntry (parse : String → Bool) (c : State) (saveOk : Bool)
    (typ : CronType) (entry : CronEntry) : Except CronError Unit × State :=
  if !parse entry.getCronSpec then (.error .malformedSchedule, c)
  else
    let r :=
      if typ = ScanCronType then saveScanEntry c saveOk entry
      else if typ = ReportCronType then saveReportEntry c saveOk entry
      else (.error .invalidCronType, c)
    match r with
    | (.error e, c') =>
      if e = .teamNotWhitelisted then (.ok (), c') else (.error e, c')
    | (.ok job, c') =>
      (.ok (), { c' with cronCalls :=
        c'.cronCalls ++ [.schedule ⟨entry.getCronSpec, job, entry.getID⟩] })

/-- `getScanEntryByID` from `scan_cron.go`. -/
def getScanEntryByID (c : State) (id : String) : Except CronError ScanEntry :=
  match mapLookup c.scanEntries id with
  | some e => .ok e
  | none => .error .scheduleNotFound

/-- `getReportEntryByID` from `report_cron.go`. -/
def getReportEntryByID (c : State) (id : String) : Except CronError ReportEntry :=
  match mapLookup c.reportEntries id with
  | some e => .ok e
  | none => .error .scheduleNotFound

/-- `GetEntryByID` from `crontinuous.go`. -/
def getEntryByID (c : State) (typ : CronType) (id : String) :
    Except CronError CronEntry :=
  if typ = ScanCronType then (getScanEntryByID c id).map .scan
  else if typ = ReportCronType then (getReportEntryByID c id).map .report
  else .error .invalidCronType

/-- `getScanEntries` from `scan_cron.go` (order is the table's). -/
def getScanEntries (c : State) : List CronEntry :=
  c.scanEntries.map fun p => .scan p.2

/-- `getReportEntries` from `report_cron.go`. -/
def getReportEntries (c : State) : List CronEntry :=
  c.reportEntries.map fun p => .report p.2

/-- `GetEntries` from `crontinuous.go`. -/
def getEntries (c : State) (typ : CronType) : Except CronError (List CronEntry) :=
  if typ = ScanCronType then .ok (getScanEntries c)
  else if typ = ReportCronType then .ok (getReportEntries c)
  else .error .invalidCronType

/-- `removeScanEntry` from `scan_cron.go`: not-found check, delete,
persist. -/
def removeScanEntry (c : State) (saveOk : Bool) (id : String) :
    Except CronError Unit × State :=
  match mapLookup c.scanEntries id with
  | none => (.error .scheduleNotFound, c)
  | some _ =>
    let entries' := mapErase c.scanEntries id
    let c' := { c with scanEntries := entries' }
    if saveOk then (.ok (), { c' with persistedScan := entries' })
    else (.error .persistenceFailure, c')

/-- `removeReportEntry` from `report_cron.go`. -/
def removeReportEntry (c : State) (saveOk : Bool) (id : String) :
    Except CronError Unit × State :=
  match mapLookup c.reportEntries id with
  | none => (.error .scheduleNotFound, c)
  | some _ =>
    let entries' := mapErase c.reportEntries id
    let c' := { c with reportEntries := entries' }
    if saveOk then (.ok (), { c' with persistedReport := entries' })
    else (.error .persistenceFailure, c')

/-- `RemoveEntry` from `crontinuous.go`: dispatch, then on success
`c.cron.RemoveJob(ID)`. -/
def removeEntry (c : State) (saveOk : Bool) (typ : CronType) (id : String) :
    Except CronError Unit × State :=
  let r :=
    if typ = ScanCronType then removeScanEntry c saveOk id
    else if typ = ReportCronType then removeReportEntry c saveOk id
    else (.error .invalidCronType, c)
  match r with
  | (.error e, c') => (.error e, c')
  | (.ok _, c') =>
    (.ok (), { c' with cronCalls := c'.cronCalls ++ [.removeJob id] })

/-- The first loop of `BulkCreate`: parse each entry's spec (any failure
rejects the whole call with `ErrMalformedSchedule`), accumulating a map
keyed by `GetID` in which a later entry with the same id overwrites an
earlier one.  The Go loop walks `entries` and `overwriteSettings` in
parallel; here they come pre-zipped. -/
def parseEntries (parse : String → Bool) :
    List (CronEntry × Bool) → List (String × CronEntryWithSchedule) →
    Except CronError (List (String × CronEntryWithSchedule))
  | [], acc => .ok acc
  | (e, ov) :: rest, acc =>
    if parse e.getCronSpec then
      parseEntries parse rest
        (mapInsert acc e.getID ⟨e, e.getCronSpec, ov⟩)
    else .error .malformedSchedule

/-- The loop of `scanBulkCreate` over the parsed batch: wrong-variant
entries abort with `ErrMalformedEntry`; an existing id whose incoming
flag is `false` is skipped; otherwise the snapshot is upserted, and a
job is produced when the team is whitelisted. -/
def scanBulkLoop (cfg : Config) :
    List (String × CronEntryWithSchedule) → List (String × ScanEntry) →
    List CronJobSchedule →
    Except CronError (List (String × ScanEntry) × List CronJobSchedule)
  | [], current, jobs => .ok (current, jobs)
  | (_, e) :: rest, current, jobs =>
    match e.entry with
    | .scan se =>
      if (mapLookup current se.programID).isSome && !e.overwriteEntry then
        scanBulkLoop cfg rest current jobs
      else
        let current' := mapInsert current se.programID se
        if isTeamWhitelisted cfg ScanCronType se.teamID then
          scanBulkLoop cfg rest current'
            (jobs ++ [⟨e.schedule, .scanJob se.programID se.teamID, se.programID⟩])
        else
          scanBulkLoop cfg rest current' jobs
    | .report _ => .error .malformedEntry

/-- `scanBulkCreate` from `scan_cron.go`: run the loop on a snapshot of
the table; on success install the snapshot and persist it (a store
failure is returned with the table already replaced). -/
def scanBulkCreate (c : State) (saveOk : Bool)
    (parsedEntries : List (String × CronEntryWithSchedule)) :
    Except CronError (List CronJobSchedule) × State :=
  match scanBulkLoop c.config parsedEntries c.scanEntries [] with
  | .error e => (.error e, c)
  | .ok (current, jobs) =>
    let c' := { c with scanEntries := current }
    if saveOk then (.ok jobs, { c' with persistedScan := current })
    else (.error .persistenceFailure, c')

/-- The loop of `reportBulkCreate`, mirror of `scanBulkLoop`. -/
def reportBulkLoop (cfg : Config) :
    List (String × CronEntryWithSchedule) → List (String × ReportEntry) →
    List CronJobSchedule →
    Except CronError (List (String × ReportEntry) × List CronJobSchedule)
  | [], current, jobs => .ok (current, jobs)
  | (_, e) :: rest, current, jobs =>
    match e.entry with
    | .report re =>
      if (mapLookup current re.teamID).isSome && !e.overwriteEntry then
        reportBulkLoop cfg rest current jobs
      else
        let current' := mapInsert current re.teamID re
        if isTeamWhitelisted cfg ReportCronType re.teamID then
          reportBulkLoop cfg rest current'
            (jobs ++ [⟨e.schedule, .reportJob re.teamID, re.teamID⟩])
        else
          reportBulkLoop cfg rest current' jobs
    | .scan _ => .error .malformedEntry

/-- `reportBulkCreate` from `report_cron.go`. -/
def reportBulkCreate (c : State) (saveOk : Bool)
    (parsedEntries : List (String × CronEntryWithSchedule)) :
    Except CronError (List CronJobSchedule) × State :=
  match reportBulkLoop c.config parsedEntries c.reportEntries [] with
  | .error e => (.error e, c)
  | .ok (current, jobs) =>
    let c' := { c with reportEntries := current }
    if saveOk then (.ok jobs, { c' with persistedReport := current })
    else (.error .persistenceFailure, c')

/-- `BulkCreate` from `crontinuous.go`: parse phase, dispatch on the
type tag (default: `ErrInvalidCronType`), then on success register
every produced job with the scheduler. -/
def bulkCreate (parse : String → Bool) (c : State) (saveOk : Bool)
    (typ : CronType) (entries : List CronEntry) (overwriteSettings : List Bool) :
    Except CronError Unit × State :=
  match parseEntries parse (entries.zip overwriteSettings) [] with
  | .error e => (.error e, c)
  | .ok parsed =>
    let r :=
      if typ = ScanCronType then scanBulkCreate c saveOk parsed
      else if typ = ReportCronType then reportBulkCreate c saveOk parsed
      else (.error .invalidCronType, c)
    match r with
    | (.error e, c') => (.error e, c')
    | (.ok jobs, c') =>
      (.ok (), { c' with cronCalls :=
        c'.cronCalls ++ jobs.map SchedulerCall.schedule })

/-- `buildScanEntries` from `crontinuous.go`, given the loaded table
(the store read having succeeded): skip non-whitelisted teams, abort on
any parse failure, otherwise build one job per surviving entry. -/
def buildScanEntries (parse : String → Bool) (cfg : Config) :
    List (String × ScanEntry) → Except CronError (List CronJobSchedule)
  | [] => .ok []
  | (_, se) :: rest =>
    if !isTeamWhitelisted cfg ScanCronType se.teamID then
      buildScanEntries parse cfg rest
    else if parse se.cronSpec then
      (buildScanEntries parse cfg rest).map
        (fun js => ⟨se.cronSpec, .scanJob se.programID se.teamID, se.programID⟩ :: js)
    else .error .parseFailure

/-- `buildReportEntries` from `crontinuous.go`. -/
def buildReportEntries (parse : String → Bool) (cfg : Config) :
    List (String × ReportEntry) → Except CronError (List CronJobSchedule)
  | [] => .ok []
  | (_, re) :: rest =>
    if !isTeamWhitelisted cfg ReportCronType re.teamID then
      buildReportEntries parse cfg rest
    else if parse re.cronSpec then
      (buildReportEntries parse cfg rest).map
        (fun js => ⟨re.cronSpec, .reportJob re.teamID, re.teamID⟩ :: js)
    else .error .parseFailure

/-- `Start` from `crontinuous.go`, given the two loaded tables (store
reads having succeeded): `c.cron = cron.New()` resets the scheduler
trace; scan entries are built and installed, then report entries; any
build error aborts before a single job is scheduled; on success all jobs
are scheduled and the clock started. -/
def start (parse : String → Bool) (c : State)
    (loadedScan : List (String × ScanEntry))
    (loadedReport : List (String × ReportEntry)) :
    Except CronError Unit × State :=
  let c0 := { c with cronCalls := [] }
  match buildScanEntries parse c.config loadedScan with
  | .error e => (.error e, c0)
  | .ok scanSchedules =>
    let c1 := { c0 with scanEntries := loadedScan }
    match buildReportEntries parse c.config loadedReport with
    | .error e => (.error e, c1)
    | .ok reportSchedules =>
      let c2 := { c1 with reportEntries := loadedReport }
      (.ok (), { c2 with cronCalls :=
        (scanSchedules ++ reportSchedules).map SchedulerCall.schedule
          ++ [.start] })

/-! ## Association-map lemmas -/

theorem mapLookup_insert {α : Type} (m : List (String × α)) (k k' : String) (v : α) :
    mapLookup (mapInsert m k v) k' = if k = k' then some v else mapLookup m k' := by
  induction m with
  | nil => simp [mapInsert, mapLookup]
  | cons p rest ih =>
    obtain ⟨k₀, v₀⟩ := p
    simp only [mapInsert]
    by_cases h : k₀ = k
    · subst h
      simp only [if_pos rfl, mapLookup]
      by_cases hk : k₀ = k'
      · simp [hk]
      · simp [hk]
    · simp only [if_neg h, mapLookup, ih]
      by_cases h0 : k₀ = k'
      · subst h0
        have hk : ¬ k = k₀ := fun hkk => h (Eq.symm hkk)
        simp [hk]
      · simp [h0]

theorem mem_of_mapLookup_eq_some {α : Type} {m : List (String × α)} {k : String} {v : α}
    (h : mapLookup m k = some v) : (k, v) ∈ m := by
  induction m with
  | nil => simp [mapLookup] at h
  | cons p rest ih =>
    obtain ⟨k₀, v₀⟩ := p
    simp only [mapLookup] at h
    by_cases h0 : k₀ = k
    · subst h0
      rw [if_pos rfl] at h
      injection h with h
      subst h
      exact List.mem_cons_self _ _
    · simp only [if_neg h0] at h
      exact List.mem_cons_of_mem _ (ih h)

theorem mapInsert_of_not_mem_keys {α : Type} {m : List (String × α)} {k : String}
    (v : α) (h : ∀ p ∈ m, p.1 ≠ k) : mapInsert m k v = m ++ [(k, v)] := by
  induction m with
  | nil => simp [mapInsert]
  | cons p rest ih =>
    obtain ⟨k₀, v₀⟩ := p
    have hk : k₀ ≠ k := h (k₀, v₀) (List.mem_cons_self _ _)
    simp only [mapInsert, if_neg hk, List.cons_append, List.cons.injEq, true_and]
    exact ih fun q hq => h q (List.mem_cons_of_mem _ hq)

theorem mem_mapInsert {α : Type} {m : List (String × α)} {k : String} {v : α}
    {q : String × α} (h : q ∈ mapInsert m k v) : q ∈ m ∨ q = (k, v) := by
  induction m with
  | nil => simp [mapInsert] at h; simp [h]
  | cons p rest ih =>
    obtain ⟨k₀, v₀⟩ := p
    by_cases h0 : k₀ = k
    · subst h0
      simp only [mapInsert, if_pos rfl] at h
      rcases List.mem_cons.mp h with rfl | hm
      · exact Or.inr rfl
      · exact Or.inl (List.mem_cons_of_mem _ hm)
    · simp only [mapInsert, if_neg h0] at h
      rcases List.mem_cons.mp h with rfl | hm
      · exact Or.inl (List.mem_cons_self _ _)
      · rcases ih hm with hq | hq
        · exact Or.inl (List.mem_cons_of_mem _ hq)
        · exact Or.inr hq

/-! ## Lemmas about the parse phase of `BulkCreate` -/

theorem parseEntries_ok_of_all (parse : String → Bool)
    (l : List (CronEntry × Bool)) (acc : List (String × CronEntryWithSchedule))
    (h : ∀ p ∈ l, parse (p : CronEntry × Bool).1.getCronSpec = true) :
    ∃ m, parseEntries parse l acc = .ok m := by
  induction l generalizing acc with
  | nil => exact ⟨acc, rfl⟩
  | cons p rest ih =>
    obtain ⟨e, ov⟩ := p
    have he := h (e, ov) (List.mem_cons_self _ _)
    simp only [parseEntries, he, if_true]
    exact ih _ fun q hq => h q (List.mem_cons_of_mem _ hq)

theorem parseEntries_error_of_bad (parse : String → Bool)
    (l : List (CronEntry × Bool)) (acc : List (String × CronEntryWithSchedule))
    (h : ∃ p ∈ l, parse (p : CronEntry × Bool).1.getCronSpec = false) :
    parseEntries parse l acc = .error .malformedSchedule := by
  induction l generalizing acc with
  | nil => rcases h with ⟨p, hp, _⟩; simp at hp
  | cons q rest ih =>
    obtain ⟨e, ov⟩ := q
    rcases h with ⟨p, hp, hbad⟩
    rcases List.mem_cons.mp hp with rfl | hmem
    · simp [parseEntries, hbad]
    · cases hq : parse e.getCronSpec with
      | false => simp [parseEntries, hq]
      | true =>
        simp only [parseEntries, hq, if_true]
        exact ih _ ⟨p, hmem, hbad⟩

theorem parseEntries_mem (parse : String → Bool)
    {l : List (CronEntry × Bool)} {acc m : List (String × CronEntryWithSchedule)}
    (hm : parseEntries parse l acc = .ok m) :
    ∀ q ∈ m, q ∈ acc ∨
      ∃ p ∈ l, q = ((p : CronEntry × Bool).1.getID,
        ⟨p.1, p.1.getCronSpec, p.2⟩) := by
  induction l generalizing acc with
  | nil =>
    simp only [parseEntries] at hm
    injection hm with hm
    subst hm
    exact fun q hq => Or.inl hq
  | cons p rest ih =>
    obtain ⟨e, ov⟩ := p
    simp only [parseEntries] at hm
    cases hp : parse (e.getCronSpec) with
    | false => rw [hp] at hm; simp at hm
    | true =>
      rw [hp] at hm
      simp only [if_true] at hm
      intro q hq
      rcases ih hm q hq with hacc | ⟨p', hp', rfl⟩
      · rcases mem_mapInsert hacc with hacc' | rfl
        · exact Or.inl hacc'
        · exact Or.inr ⟨(e, ov), List.mem_cons_self _ _, rfl⟩
      · exact Or.inr ⟨p', List.mem_cons_of_mem _ hp', rfl⟩

theorem exists_mem_zip_of_mem_left {α β : Type} {a : α} {l₁ : List α} {l₂ : List β}
    (h : a ∈ l₁) (hlen : l₁.length = l₂.length) : ∃ b, (a, b) ∈ l₁.zip l₂ := by
  induction l₁ generalizing l₂ with
  | nil => simp at h
  | cons x rest ih =>
    cases l₂ with
    | nil => simp at hlen
    | cons y rest₂ =>
      rcases List.mem_cons.mp h with rfl | hmem
      · exact ⟨y, List.mem_cons_self _ _⟩
      · have hlen' : rest.length = rest₂.length := by simpa using hlen
        obtain ⟨b, hb⟩ := ih hmem hlen'
        exact ⟨b, List.mem_cons_of_mem _ hb⟩

theorem reportCronType_ne_scanCronType : ReportCronType ≠ ScanCronType := by decide

theorem scanCronType_ne_reportCronType : ScanCronType ≠ ReportCronType := by decide

/-! ## Claim theorems -/

/-- C1: for either cron type and any entry of the matching variant whose
cron spec parses, a successful `SaveEntry(type, e)` followed by
`GetEntryByID(type, e.id)` returns `e` (the save succeeds, and the
lookup finds exactly the saved entry). -/
theorem saveEntry_then_getEntryByID (parse : String → Bool) (c : State)
    (typ : CronType) (e : CronEntry)
    (hparse : parse e.getCronSpec = true)
    (hvariant : (typ = ScanCronType ∧ ∃ se, e = .scan se) ∨
                (typ = ReportCronType ∧ ∃ re, e = .report re)) :
    (saveEntry parse c true typ e).1 = .ok () ∧
    getEntryByID (saveEntry parse c true typ e).2 typ e.getID = .ok e := by
  rcases hvariant with ⟨htyp, se, rfl⟩ | ⟨htyp, re, rfl⟩ <;> subst htyp
  · simp only [CronEntry.getCronSpec] at hparse
    by_cases hw : isTeamWhitelisted c.config ScanCronType se.teamID <;>
      simp [saveEntry, saveScanEntry, hparse, hw, getEntryByID, getScanEntryByID,
        CronEntry.getID, CronEntry.getCronSpec, mapLookup_insert, Except.map]
  · simp only [CronEntry.getCronSpec] at hparse
    by_cases hw : isTeamWhitelisted c.config ReportCronType re.teamID <;>
      simp [saveEntry, saveReportEntry, hparse, hw, getEntryByID, getReportEntryByID,
        CronEntry.getID, CronEntry.getCronSpec, mapLookup_insert, Except.map,
        reportCronType_ne_scanCronType]

/-- Witness for C1 at a concrete scan entry on a fresh service. -/
theorem saveEntry_then_getEntryByID_witness :
    (saveEntry (fun _ => true) (newCrontinuous ⟨false, [], false, []⟩) true ScanCronType
        (.scan ⟨"p1", "t1", "* * * * *"⟩)).1 = .ok () ∧
    getEntryByID
        (saveEntry (fun _ => true) (newCrontinuous ⟨false, [], false, []⟩) true ScanCronType
          (.scan ⟨"p1", "t1", "* * * * *"⟩)).2 ScanCronType
        (CronEntry.scan ⟨"p1", "t1", "* * * * *"⟩).getID =
      .ok (.scan ⟨"p1", "t1", "* * * * *"⟩) :=
  saveEntry_then_getEntryByID (fun _ => true) (newCrontinuous ⟨false, [], false, []⟩)
    ScanCronType (.scan ⟨"p1", "t1", "* * * * *"⟩) rfl
    (Or.inl ⟨rfl, ⟨"p1", "t1", "* * * * *"⟩, rfl⟩)

/-- C8: for either cron type, `RemoveEntry` on an id absent from that
type's table returns `ErrScheduleNotFound` and leaves the whole state
unchanged: same tables, same persisted copies, and no `RemoveJob` call
to the scheduler. -/
theorem removeEntry_absent_id (c : State) (saveOk : Bool) (typ : CronType) (id : String)
    (h : (typ = ScanCronType ∧ mapLookup c.scanEntries id = none) ∨
         (typ = ReportCronType ∧ mapLookup c.reportEntries id = none)) :
    removeEntry c saveOk typ id = (.error .scheduleNotFound, c) := by
  rcases h with ⟨htyp, hl⟩ | ⟨htyp, hl⟩ <;> subst htyp <;>
    simp [removeEntry, removeScanEntry, removeReportEntry, hl,
      reportCronType_ne_scanCronType]

/-- Witness for C8 on a fresh service and a missing id. -/
theorem removeEntry_absent_id_witness :
    removeEntry (newCrontinuous ⟨false, [], false, []⟩) true ScanCronType "missing" =
      (.error .scheduleNotFound, newCrontinuous ⟨false, [], false, []⟩) :=
  removeEntry_absent_id (newCrontinuous ⟨false, [], false, []⟩) true ScanCronType
    "missing" (Or.inl ⟨rfl, rfl⟩)

/-- C2: for any type tag and any batch with parallel overwrite flags, if
some entry's cron spec fails to parse, `BulkCreate` returns
`ErrMalformedSchedule` with the whole state unchanged — same in-memory
tables, same persisted copies, no scheduler call. -/
theorem bulkCreate_rejects_malformed (parse : String → Bool) (c : State)
    (saveOk : Bool) (typ : CronType) (entries : List CronEntry) (ovs : List Bool)
    (hlen : entries.length = ovs.length)
    (hbad : ∃ e ∈ entries, parse e.getCronSpec = false) :
    bulkCreate parse c saveOk typ entries ovs = (.error .malformedSchedule, c) := by
  rcases hbad with ⟨e, he, hbade⟩
  obtain ⟨b, hb⟩ := exists_mem_zip_of_mem_left he hlen
  have herr := parseEntries_error_of_bad parse (entries.zip ovs) [] ⟨(e, b), hb, hbade⟩
  simp [bulkCreate, herr]

/-- Witness for C2: a two-entry batch whose second spec does not parse. -/
theorem bulkCreate_rejects_malformed_witness :
    bulkCreate (fun s => s == "ok") (newCrontinuous ⟨false, [], false, []⟩) true
        ScanCronType [.scan ⟨"p1", "t1", "ok"⟩, .scan ⟨"p2", "t2", "bad"⟩]
        [true, true] =
      (.error .malformedSchedule, newCrontinuous ⟨false, [], false, []⟩) :=
  bulkCreate_rejects_malformed (fun s => s == "ok")
    (newCrontinuous ⟨false, [], false, []⟩) true ScanCronType
    [.scan ⟨"p1", "t1", "ok"⟩, .scan ⟨"p2", "t2", "bad"⟩] [true, true] rfl
    ⟨.scan ⟨"p2", "t2", "bad"⟩, by simp, rfl⟩

/-- C6 counterexample: the claim says every call with an unrecognized
type tag fails with the invalid-type error; but `SaveEntry` parses the
cron spec before dispatching on the tag, so with tag 2 and an unparsable
spec the call fails with `ErrMalformedSchedule` instead. -/
theorem invalidType_error_counterexample :
    (saveEntry (fun _ => false) (newCrontinuous ⟨false, [], false, []⟩) true 2
        (.scan ⟨"p1", "t1", "bad"⟩)).1 = .error .malformedSchedule ∧
    CronError.malformedSchedule ≠ CronError.invalidCronType := by
  exact ⟨rfl, by decide⟩

/-- C6 (amended): a call to any of the five operations with a type tag
that is neither Scan nor Report leaves the whole state unchanged and —
provided, for `SaveEntry`/`BulkCreate`, the cron specs parse (their
parse phase precedes the dispatch) — fails with the invalid-type error;
the three read/remove operations fail with it unconditionally. -/
theorem invalidType_rejected (parse : String → Bool) (c : State) (saveOk : Bool)
    (typ : CronType) (entry : CronEntry) (entries : List CronEntry)
    (ovs : List Bool) (id : String)
    (h0 : typ ≠ ScanCronType) (h1 : typ ≠ ReportCronType) :
    (parse entry.getCronSpec = true →
      saveEntry parse c saveOk typ entry = (.error .invalidCronType, c)) ∧
    ((∀ e ∈ entries, parse e.getCronSpec = true) →
      bulkCreate parse c saveOk typ entries ovs = (.error .invalidCronType, c)) ∧
    getEntries c typ = .error .invalidCronType ∧
    getEntryByID c typ id = .error .invalidCronType ∧
    removeEntry c saveOk typ id = (.error .invalidCronType, c) := by
  refine ⟨fun hp => ?_, fun hall => ?_, ?_, ?_, ?_⟩
  · simp [saveEntry, hp, h0, h1]
  · obtain ⟨m, hm⟩ := parseEntries_ok_of_all parse (entries.zip ovs) []
      fun p hp => hall p.1 (List.of_mem_zip hp).1
    simp [bulkCreate, hm, h0, h1]
  · simp [getEntries, h0, h1]
  · simp [getEntryByID, h0, h1]
  · simp [removeEntry, h0, h1]

/-- Witness for C6 (amended) at tag 3 on a fresh service. -/
theorem invalidType_rejected_witness :
    (((fun _ : String => true) (CronEntry.scan ⟨"p1", "t1", "s"⟩).getCronSpec = true →
      saveEntry (fun _ => true) (newCrontinuous ⟨false, [], false, []⟩) true 3
          (.scan ⟨"p1", "t1", "s"⟩) =
        (.error .invalidCronType, newCrontinuous ⟨false, [], false, []⟩)) ∧
    ((∀ e ∈ [CronEntry.scan ⟨"p1", "t1", "s"⟩], (fun _ : String => true) e.getCronSpec = true) →
      bulkCreate (fun _ => true) (newCrontinuous ⟨false, [], false, []⟩) true 3
          [.scan ⟨"p1", "t1", "s"⟩] [true] =
        (.error .invalidCronType, newCrontinuous ⟨false, [], false, []⟩)) ∧
    getEntries (newCrontinuous ⟨false, [], false, []⟩) 3 = .error .invalidCronType ∧
    getEntryByID (newCrontinuous ⟨false, [], false, []⟩) 3 "x" = .error .invalidCronType ∧
    removeEntry (newCrontinuous ⟨false, [], false, []⟩) true 3 "x" =
      (.error .invalidCronType, newCrontinuous ⟨false, [], false, []⟩)) :=
  invalidType_rejected (fun _ => true) (newCrontinuous ⟨false, [], false, []⟩) true 3
    (.scan ⟨"p1", "t1", "s"⟩) [.scan ⟨"p1", "t1", "s"⟩] [true] "x"
    (by decide) (by decide)

/-- C7: for either cron type, saving a valid entry whose team fails the
whitelist check succeeds, stores the entry (retrievable by
`GetEntryByID`), persists the updated table, and makes no call to the
scheduler (no job is registered). -/
theorem saveEntry_not_whitelisted (parse : String → Bool) (c : State)
    (typ : CronType) (e : CronEntry)
    (hparse : parse e.getCronSpec = true)
    (hvariant : (typ = ScanCronType ∧ ∃ se, e = .scan se) ∨
                (typ = ReportCronType ∧ ∃ re, e = .report re))
    (hw : isTeamWhitelisted c.config typ
        (match e with | .scan se => se.teamID | .report re => re.teamID) = false) :
    (saveEntry parse c true typ e).1 = .ok () ∧
    (saveEntry parse c true typ e).2.cronCalls = c.cronCalls ∧
    (typ = ScanCronType →
      (saveEntry parse c true typ e).2.persistedScan =
        (saveEntry parse c true typ e).2.scanEntries) ∧
    (typ = ReportCronType →
      (saveEntry parse c true typ e).2.persistedReport =
        (saveEntry parse c true typ e).2.reportEntries) ∧
    getEntryByID (saveEntry parse c true typ e).2 typ e.getID = .ok e := by
  rcases hvariant with ⟨htyp, se, rfl⟩ | ⟨htyp, re, rfl⟩ <;> subst htyp
  · simp only [CronEntry.getCronSpec] at hparse
    simp only at hw
    simp [saveEntry, saveScanEntry, hparse, hw, getEntryByID, getScanEntryByID,
      CronEntry.getID, CronEntry.getCronSpec, mapLookup_insert, Except.map,
      scanCronType_ne_reportCronType]
  · simp only [CronEntry.getCronSpec] at hparse
    simp only at hw
    simp [saveEntry, saveReportEntry, hparse, hw, getEntryByID, getReportEntryByID,
      CronEntry.getID, CronEntry.getCronSpec, mapLookup_insert, Except.map,
      reportCronType_ne_scanCronType]

/-- Witness for C7: report whitelist enabled for team t1 only; a report
entry for team t2 is saved, retrievable, and schedules nothing. -/
theorem saveEntry_not_whitelisted_witness :
    (saveEntry (fun _ => true) (newCrontinuous ⟨false, [], true, ["t1"]⟩) true
        ReportCronType (.report ⟨"t2", "* * * * *"⟩)).1 = .ok () ∧
    (saveEntry (fun _ => true) (newCrontinuous ⟨false, [], true, ["t1"]⟩) true
        ReportCronType (.report ⟨"t2", "* * * * *"⟩)).2.cronCalls =
      (newCrontinuous ⟨false, [], true, ["t1"]⟩).cronCalls ∧
    (ReportCronType = ScanCronType →
      (saveEntry (fun _ => true) (newCrontinuous ⟨false, [], true, ["t1"]⟩) true
          ReportCronType (.report ⟨"t2", "* * * * *"⟩)).2.persistedScan =
        (saveEntry (fun _ => true) (newCrontinuous ⟨false, [], true, ["t1"]⟩) true
          ReportCronType (.report ⟨"t2", "* * * * *"⟩)).2.scanEntries) ∧
    (ReportCronType = ReportCronType →
      (saveEntry (fun _ => true) (newCrontinuous ⟨false, [], true, ["t1"]⟩) true
          ReportCronType (.report ⟨"t2", "* * * * *"⟩)).2.persistedReport =
        (saveEntry (fun _ => true) (newCrontinuous ⟨false, [], true, ["t1"]⟩) true
          ReportCronType (.report ⟨"t2", "* * * * *"⟩)).2.reportEntries) ∧
    getEntryByID
        (saveEntry (fun _ => true) (newCrontinuous ⟨false, [], true, ["t1"]⟩) true
          ReportCronType (.report ⟨"t2", "* * * * *"⟩)).2 ReportCronType
        (CronEntry.report ⟨"t2", "* * * * *"⟩).getID =
      .ok (.report ⟨"t2", "* * * * *"⟩) :=
  saveEntry_not_whitelisted (fun _ => true) (newCrontinuous ⟨false, [], true, ["t1"]⟩)
    ReportCronType (.report ⟨"t2", "* * * * *"⟩) rfl
    (Or.inr ⟨rfl, ⟨"t2", "* * * * *"⟩, rfl⟩) (by decide)

/-! ## Lemmas about `Start` -/

theorem buildScanEntries_error_of_bad (parse : String → Bool) (cfg : Config)
    {l : List (String × ScanEntry)}
    (h : ∃ p ∈ l, isTeamWhitelisted cfg ScanCronType
        (p : String × ScanEntry).2.teamID = true ∧ parse p.2.cronSpec = false) :
    buildScanEntries parse cfg l = .error .parseFailure := by
  induction l with
  | nil => rcases h with ⟨p, hp, _⟩; simp at hp
  | cons q rest ih =>
    obtain ⟨k, se⟩ := q
    rcases h with ⟨p, hp, hwl, hbad⟩
    rcases List.mem_cons.mp hp with rfl | hmem
    · simp [buildScanEntries, hwl, hbad]
    · cases hw : isTeamWhitelisted cfg ScanCronType se.teamID with
      | false => simp only [buildScanEntries, hw, Bool.not_false, if_true]
                 exact ih ⟨p, hmem, hwl, hbad⟩
      | true =>
        cases hq : parse se.cronSpec with
        | false => simp [buildScanEntries, hw, hq]
        | true =>
          simp only [buildScanEntries, hw, Bool.not_true, if_false, hq, if_true]
          rw [ih ⟨p, hmem, hwl, hbad⟩]
          rfl

theorem buildScanEntries_error_eq (parse : String → Bool) (cfg : Config)
    {l : List (String × ScanEntry)} :
    ∀ {e : CronError}, buildScanEntries parse cfg l = .error e →
      e = .parseFailure := by
  induction l with
  | nil => intro e h; simp [buildScanEntries] at h
  | cons q rest ih =>
    intro e h
    obtain ⟨k, se⟩ := q
    cases hw : isTeamWhitelisted cfg ScanCronType se.teamID with
    | false =>
      simp only [buildScanEntries, hw, Bool.not_false, if_true] at h
      exact ih h
    | true =>
      cases hq : parse se.cronSpec with
      | false =>
        simp only [buildScanEntries, hw, Bool.not_true, if_false, hq] at h
        injection h with h
        exact h.symm
      | true =>
        simp only [buildScanEntries, hw, Bool.not_true, if_false, hq, if_true] at h
        cases hrest : buildScanEntries parse cfg rest with
        | error e' =>
          rw [hrest] at h
          simp only [Except.map] at h
          injection h with h
          exact h.symm.trans (ih hrest)
        | ok js => rw [hrest] at h; simp [Except.map] at h

theorem buildReportEntries_error_of_bad (parse : String → Bool) (cfg : Config)
    {l : List (String × ReportEntry)}
    (h : ∃ p ∈ l, isTeamWhitelisted cfg ReportCronType
        (p : String × ReportEntry).2.teamID = true ∧ parse p.2.cronSpec = false) :
    buildReportEntries parse cfg l = .error .parseFailure := by
  induction l with
  | nil => rcases h with ⟨p, hp, _⟩; simp at hp
  | cons q rest ih =>
    obtain ⟨k, re⟩ := q
    rcases h with ⟨p, hp, hwl, hbad⟩
    rcases List.mem_cons.mp hp with rfl | hmem
    · simp [buildReportEntries, hwl, hbad]
    · cases hw : isTeamWhitelisted cfg ReportCronType re.teamID with
      | false => simp only [buildReportEntries, hw, Bool.not_false, if_true]
                 exact ih ⟨p, hmem, hwl, hbad⟩
      | true =>
        cases hq : parse re.cronSpec with
        | false => simp [buildReportEntries, hw, hq]
        | true =>
          simp only [buildReportEntries, hw, Bool.not_true, if_false, hq, if_true]
          rw [ih ⟨p, hmem, hwl, hbad⟩]
          rfl

/-- C4: if any loaded entry (scan or report) passes the whitelist check
but has an unparsable cron spec, `Start` fails with the parse error and
makes no call at all to the scheduler: no job registered, no clock
started — no partial boot. -/
theorem start_aborts_on_bad_spec (parse : String → Bool) (c : State)
    (loadedScan : List (String × ScanEntry))
    (loadedReport : List (String × ReportEntry))
    (h : (∃ p ∈ loadedScan, isTeamWhitelisted c.config ScanCronType
            (p : String × ScanEntry).2.teamID = true ∧ parse p.2.cronSpec = false) ∨
         (∃ p ∈ loadedReport, isTeamWhitelisted c.config ReportCronType
            (p : String × ReportEntry).2.teamID = true ∧ parse p.2.cronSpec = false)) :
    (start parse c loadedScan loadedReport).1 = .error .parseFailure ∧
    (start parse c loadedScan loadedReport).2.cronCalls = [] := by
  rcases h with hs | hr
  · have herr := buildScanEntries_error_of_bad parse c.config hs
    simp [start, herr]
  · cases hsc : buildScanEntries parse c.config loadedScan with
    | error e =>
      have he := buildScanEntries_error_eq parse c.config hsc
      subst he
      simp [start, hsc]
    | ok js =>
      have herr := buildReportEntries_error_of_bad parse c.config hr
      simp [start, hsc, herr]

/-- Witness for C4: one loaded scan entry with an unparsable spec under
a disabled whitelist. -/
theorem start_aborts_on_bad_spec_witness :
    (start (fun _ => false) (newCrontinuous ⟨false, [], false, []⟩)
        [("p1", ⟨"p1", "t1", "bad"⟩)] []).1 = .error .parseFailure ∧
    (start (fun _ => false) (newCrontinuous ⟨false, [], false, []⟩)
        [("p1", ⟨"p1", "t1", "bad"⟩)] []).2.cronCalls = [] :=
  start_aborts_on_bad_spec (fun _ => false) (newCrontinuous ⟨false, [], false, []⟩)
    [("p1", ⟨"p1", "t1", "bad"⟩)] []
    (Or.inl ⟨("p1", ⟨"p1", "t1", "bad"⟩), List.mem_cons_self _ _, by decide, rfl⟩)

/-! ## Lemmas about the bulk-create loops -/

theorem scanBulkLoop_ok (cfg : Config) {l : List (String × CronEntryWithSchedule)}
    (h : ∀ p ∈ l, ∃ se, (p : String × CronEntryWithSchedule).2.entry = .scan se) :
    ∀ current jobs, ∃ res, scanBulkLoop cfg l current jobs = .ok res := by
  induction l with
  | nil => exact fun current jobs => ⟨(current, jobs), rfl⟩
  | cons p rest ih =>
    intro current jobs
    obtain ⟨k, e⟩ := p
    obtain ⟨se, hse⟩ := h (k, e) (List.mem_cons_self _ _)
    have ih' := ih fun q hq => h q (List.mem_cons_of_mem _ hq)
    simp only at hse
    simp only [scanBulkLoop, hse]
    cases h1 : (mapLookup current se.programID).isSome && !e.overwriteEntry with
    | true =>
      simp only [h1, if_true]
      exact ih' current jobs
    | false =>
      simp only [h1, Bool.false_eq_true, if_false]
      cases h2 : isTeamWhitelisted cfg ScanCronType se.teamID with
      | true =>
        simp only [h2, if_true]
        exact ih' _ _
      | false =>
        simp only [h2, Bool.false_eq_true, if_false]
        exact ih' _ _

theorem reportBulkLoop_ok (cfg : Config) {l : List (String × CronEntryWithSchedule)}
    (h : ∀ p ∈ l, ∃ re, (p : String × CronEntryWithSchedule).2.entry = .report re) :
    ∀ current jobs, ∃ res, reportBulkLoop cfg l current jobs = .ok res := by
  induction l with
  | nil => exact fun current jobs => ⟨(current, jobs), rfl⟩
  | cons p rest ih =>
    intro current jobs
    obtain ⟨k, e⟩ := p
    obtain ⟨re, hre⟩ := h (k, e) (List.mem_cons_self _ _)
    have ih' := ih fun q hq => h q (List.mem_cons_of_mem _ hq)
    simp only at hre
    simp only [reportBulkLoop, hre]
    cases h1 : (mapLookup current re.teamID).isSome && !e.overwriteEntry with
    | true =>
      simp only [h1, if_true]
      exact ih' current jobs
    | false =>
      simp only [h1, Bool.false_eq_true, if_false]
      cases h2 : isTeamWhitelisted cfg ReportCronType re.teamID with
      | true =>
        simp only [h2, if_true]
        exact ih' _ _
      | false =>
        simp only [h2, Bool.false_eq_true, if_false]
        exact ih' _ _

theorem parseEntries_values_scan (parse : String → Bool)
    {entries : List CronEntry} {ovs : List Bool}
    {m : List (String × CronEntryWithSchedule)}
    (hm : parseEntries parse (entries.zip ovs) [] = .ok m)
    (hscan : ∀ e ∈ entries, ∃ s, e = CronEntry.scan s) :
    ∀ q ∈ m, ∃ se, (q : String × CronEntryWithSchedule).2.entry = .scan se := by
  intro q hq
  rcases parseEntries_mem parse hm q hq with hacc | ⟨p, hp, rfl⟩
  · simp at hacc
  · obtain ⟨s, hs⟩ := hscan p.1 (List.of_mem_zip hp).1
    exact ⟨s, by simp [hs]⟩

theorem parseEntries_values_report (parse : String → Bool)
    {entries : List CronEntry} {ovs : List Bool}
    {m : List (String × CronEntryWithSchedule)}
    (hm : parseEntries parse (entries.zip ovs) [] = .ok m)
    (hrep : ∀ e ∈ entries, ∃ r, e = CronEntry.report r) :
    ∀ q ∈ m, ∃ re, (q : String × CronEntryWithSchedule).2.entry = .report re := by
  intro q hq
  rcases parseEntries_mem parse hm q hq with hacc | ⟨p, hp, rfl⟩
  · simp at hacc
  · obtain ⟨r, hr⟩ := hrep p.1 (List.of_mem_zip hp).1
    exact ⟨r, by simp [hr]⟩

/-- C5: when the persistence call fails (saveOk = false) after the
in-memory mutation, each write operation returns the persistence failure
and the in-memory table keeps the mutation: `SaveEntry` leaves the saved
entry in the table, and `BulkCreate` leaves the table exactly as the
successful run would (no rollback), for both cron types. -/
theorem persistence_failure_no_rollback (parse : String → Bool) (c : State)
    (se : ScanEntry) (re : ReportEntry)
    (entriesS entriesR : List CronEntry) (ovsS ovsR : List Bool)
    (hps : parse se.cronSpec = true) (hpr : parse re.cronSpec = true)
    (hallS : ∀ e ∈ entriesS, parse e.getCronSpec = true)
    (hscanS : ∀ e ∈ entriesS, ∃ s, e = CronEntry.scan s)
    (hallR : ∀ e ∈ entriesR, parse e.getCronSpec = true)
    (hrepR : ∀ e ∈ entriesR, ∃ r, e = CronEntry.report r) :
    ((saveEntry parse c false ScanCronType (.scan se)).1 =
        .error .persistenceFailure ∧
      mapLookup (saveEntry parse c false ScanCronType (.scan se)).2.scanEntries
        se.programID = some se) ∧
    ((saveEntry parse c false ReportCronType (.report re)).1 =
        .error .persistenceFailure ∧
      mapLookup (saveEntry parse c false ReportCronType (.report re)).2.reportEntries
        re.teamID = some re) ∧
    ((bulkCreate parse c false ScanCronType entriesS ovsS).1 =
        .error .persistenceFailure ∧
      (bulkCreate parse c false ScanCronType entriesS ovsS).2.scanEntries =
        (bulkCreate parse c true ScanCronType entriesS ovsS).2.scanEntries) ∧
    ((bulkCreate parse c false ReportCronType entriesR ovsR).1 =
        .error .persistenceFailure ∧
      (bulkCreate parse c false ReportCronType entriesR ovsR).2.reportEntries =
        (bulkCreate parse c true ReportCronType entriesR ovsR).2.reportEntries) := by
  refine ⟨?_, ?_, ?_, ?_⟩
  · simp [saveEntry, saveScanEntry, CronEntry.getCronSpec, hps, mapLookup_insert]
  · simp [saveEntry, saveReportEntry, CronEntry.getCronSpec, hpr, mapLookup_insert,
      reportCronType_ne_scanCronType]
  · obtain ⟨m, hm⟩ := parseEntries_ok_of_all parse (entriesS.zip ovsS) []
      fun p hp => hallS p.1 (List.of_mem_zip hp).1
    obtain ⟨⟨cur, jobs⟩, hloop⟩ :=
      scanBulkLoop_ok c.config (parseEntries_values_scan parse hm hscanS)
        c.scanEntries []
    simp [bulkCreate, hm, scanBulkCreate, hloop]
  · obtain ⟨m, hm⟩ := parseEntries_ok_of_all parse (entriesR.zip ovsR) []
      fun p hp => hallR p.1 (List.of_mem_zip hp).1
    obtain ⟨⟨cur, jobs⟩, hloop⟩ :=
      reportBulkLoop_ok c.config (parseEntries_values_report parse hm hrepR)
        c.reportEntries []
    simp [bulkCreate, hm, reportBulkCreate, hloop, reportCronType_ne_scanCronType]

/-- Witness for C5 (the scan `SaveEntry` conjunct, all hypotheses
discharged at concrete inputs). -/
theorem persistence_failure_no_rollback_witness :
    (saveEntry (fun _ => true) (newCrontinuous ⟨false, [], false, []⟩) false
        ScanCronType (.scan ⟨"p1", "t1", "s"⟩)).1 = .error .persistenceFailure ∧
    mapLookup
        (saveEntry (fun _ => true) (newCrontinuous ⟨false, [], false, []⟩) false
          ScanCronType (.scan ⟨"p1", "t1", "s"⟩)).2.scanEntries "p1" =
      some ⟨"p1", "t1", "s"⟩ :=
  (persistence_failure_no_rollback (fun _ => true)
    (newCrontinuous ⟨false, [], false, []⟩) ⟨"p1", "t1", "s"⟩ ⟨"t1", "s"⟩
    [.scan ⟨"p1", "t1", "s"⟩] [.report ⟨"t1", "s"⟩] [true] [true]
    rfl rfl (by simp) (fun e he => by simp at he; exact ⟨_, he⟩)
    (by simp) (fun e he => by simp at he; exact ⟨_, he⟩)).1

/-! ## The parse phase keyed by id: nodup keys and last occurrence wins -/

theorem mem_keys_mapInsert {α : Type} {m : List (String × α)} {k a : String} {v : α}
    (h : a ∈ (mapInsert m k v).map Prod.fst) : a = k ∨ a ∈ m.map Prod.fst := by
  induction m with
  | nil => simp [mapInsert] at h; simp [h]
  | cons p rest ih =>
    obtain ⟨k₀, v₀⟩ := p
    by_cases h0 : k₀ = k
    · subst h0
      simp only [mapInsert, if_pos rfl, List.map_cons] at h
      rcases List.mem_cons.mp h with rfl | hm
      · exact Or.inl rfl
      · exact Or.inr (List.mem_cons_of_mem _ hm)
    · simp only [mapInsert, if_neg h0, List.map_cons] at h
      rcases List.mem_cons.mp h with rfl | hm
      · exact Or.inr (List.mem_cons_self _ _)
      · rcases ih hm with ha | ha
        · exact Or.inl ha
        · exact Or.inr (List.mem_cons_of_mem _ ha)

theorem mapKeysNodup_insert {α : Type} {m : List (String × α)} (k : String) (v : α)
    (h : mapKeysNodup m) : mapKeysNodup (mapInsert m k v) := by
  induction m with
  | nil => simp [mapInsert, mapKeysNodup]
  | cons p rest ih =>
    obtain ⟨k₀, v₀⟩ := p
    simp only [mapKeysNodup, List.map_cons, List.nodup_cons] at h
    obtain ⟨hk₀, hrest⟩ := h
    by_cases h0 : k₀ = k
    · subst h0
      have hins : mapInsert ((k₀, v₀) :: rest) k₀ v = (k₀, v) :: rest := by
        simp [mapInsert]
      rw [hins]
      simp only [mapKeysNodup, List.map_cons, List.nodup_cons]
      exact ⟨hk₀, hrest⟩
    · simp only [mapInsert, if_neg h0, mapKeysNodup, List.map_cons, List.nodup_cons]
      refine ⟨fun hmem => ?_, ih hrest⟩
      rcases mem_keys_mapInsert hmem with rfl | hmem'
      · exact h0 rfl
      · exact hk₀ hmem'

theorem parseEntries_keysNodup (parse : String → Bool) :
    ∀ {l : List (CronEntry × Bool)} {acc m : List (String × CronEntryWithSchedule)},
    mapKeysNodup acc → parseEntries parse l acc = .ok m → mapKeysNodup m := by
  intro l
  induction l with
  | nil =>
    intro acc m hacc hm
    simp only [parseEntries] at hm
    injection hm with hm
    subst hm
    exact hacc
  | cons p rest ih =>
    intro acc m hacc hm
    obtain ⟨e, ov⟩ := p
    simp only [parseEntries] at hm
    cases hp : parse e.getCronSpec with
    | false => rw [hp] at hm; simp at hm
    | true =>
      rw [hp, if_pos rfl] at hm
      exact ih (mapKeysNodup_insert _ _ hacc) hm

theorem parseEntries_lookup (parse : String → Bool) :
    ∀ {l : List (CronEntry × Bool)} {acc m : List (String × CronEntryWithSchedule)},
    parseEntries parse l acc = .ok m → ∀ id : String,
      mapLookup m id =
        match l.reverse.find? (fun p => (p : CronEntry × Bool).1.getID == id) with
        | some (e, ov) => some ⟨e, e.getCronSpec, ov⟩
        | none => mapLookup acc id := by
  intro l
  induction l with
  | nil =>
    intro acc m hm id
    simp only [parseEntries] at hm
    injection hm with hm
    subst hm
    simp
  | cons p rest ih =>
    intro acc m hm id
    obtain ⟨e, ov⟩ := p
    simp only [parseEntries] at hm
    cases hp : parse e.getCronSpec with
    | false => rw [hp] at hm; simp at hm
    | true =>
      rw [hp, if_pos rfl] at hm
      rw [ih hm id, List.reverse_cons, List.find?_append]
      cases hfind : rest.reverse.find?
          (fun p => (p : CronEntry × Bool).1.getID == id) with
      | some q =>
        obtain ⟨e', ov'⟩ := q
        simp
      | none =>
        simp only [Option.none_or]
        cases hbeq : e.getID == id with
        | true =>
          have heq : e.getID = id := by simpa using hbeq
          simp [List.find?, hbeq, mapLookup_insert, heq]
        | false =>
          have hne : ¬ e.getID = id := by simpa using hbeq
          simp [List.find?, hbeq, mapLookup_insert, hne]

theorem scanBulkLoop_error_of_report_mem (cfg : Config) :
    ∀ {l : List (String × CronEntryWithSchedule)} {q : String × CronEntryWithSchedule}
    {re : ReportEntry}, q ∈ l → q.2.entry = .report re →
    ∀ current jobs, scanBulkLoop cfg l current jobs = .error .malformedEntry := by
  intro l
  induction l with
  | nil => intro q re hq _; simp at hq
  | cons p rest ih =>
    intro q re hq hre current jobs
    rcases List.mem_cons.mp hq with rfl | hmem
    · obtain ⟨k, e⟩ := q
      simp only at hre
      simp [scanBulkLoop, hre]
    · obtain ⟨k, e⟩ := p
      cases he : e.entry with
      | report r => simp [scanBulkLoop, he]
      | scan se =>
        simp only [scanBulkLoop, he]
        cases h1 : (mapLookup current se.programID).isSome && !e.overwriteEntry with
        | true =>
          simp only [h1, if_true]
          exact ih hmem hre current jobs
        | false =>
          simp only [h1, Bool.false_eq_true, if_false]
          cases h2 : isTeamWhitelisted cfg ScanCronType se.teamID with
          | true =>
            simp only [h2, if_true]
            exact ih hmem hre _ _
          | false =>
            simp only [h2, Bool.false_eq_true, if_false]
            exact ih hmem hre _ _

theorem reportBulkLoop_error_of_scan_mem (cfg : Config) :
    ∀ {l : List (String × CronEntryWithSchedule)} {q : String × CronEntryWithSchedule}
    {se : ScanEntry}, q ∈ l → q.2.entry = .scan se →
    ∀ current jobs, reportBulkLoop cfg l current jobs = .error .malformedEntry := by
  intro l
  induction l with
  | nil => intro q se hq _; simp at hq
  | cons p rest ih =>
    intro q se hq hse current jobs
    rcases List.mem_cons.mp hq with rfl | hmem
    · obtain ⟨k, e⟩ := q
      simp only at hse
      simp [reportBulkLoop, hse]
    · obtain ⟨k, e⟩ := p
      cases he : e.entry with
      | scan s => simp [reportBulkLoop, he]
      | report re =>
        simp only [reportBulkLoop, he]
        cases h1 : (mapLookup current re.teamID).isSome && !e.overwriteEntry with
        | true =>
          simp only [h1, if_true]
          exact ih hmem hse current jobs
        | false =>
          simp only [h1, Bool.false_eq_true, if_false]
          cases h2 : isTeamWhitelisted cfg ReportCronType re.teamID with
          | true =>
            simp only [h2, if_true]
            exact ih hmem hse _ _
          | false =>
            simp only [h2, Bool.false_eq_true, if_false]
            exact ih hmem hse _ _

/-- C10: the parse phase of `BulkCreate` keys the batch by entry id:
the resulting map has pairwise-distinct keys (so at most one entry per
id reaches the table-update loop), and an id maps to the last occurrence
of that id in the input sequence together with that occurrence's own
overwrite flag. -/
theorem bulkCreate_parsed_batch_last_wins (parse : String → Bool)
    (entries : List CronEntry) (ovs : List Bool) (id : String)
    (m : List (String × CronEntryWithSchedule))
    (hlen : entries.length = ovs.length)
    (hm : parseEntries parse (entries.zip ovs) [] = .ok m) :
    mapKeysNodup m ∧
    mapLookup m id =
      match (entries.zip ovs).reverse.find?
          (fun p => (p : CronEntry × Bool).1.getID == id) with
      | some (e, ov) => some ⟨e, e.getCronSpec, ov⟩
      | none => none := by
  refine ⟨parseEntries_keysNodup parse (by simp [mapKeysNodup]) hm, ?_⟩
  rw [parseEntries_lookup parse hm id]
  cases hfind : (entries.zip ovs).reverse.find?
      (fun p => (p : CronEntry × Bool).1.getID == id) with
  | some q => obtain ⟨e, ov⟩ := q; rfl
  | none => rfl

/-- Witness for C10: a two-entry batch sharing the id "a"; the parsed
map holds only the second occurrence, with its own overwrite flag. -/
theorem bulkCreate_parsed_batch_last_wins_witness :
    mapKeysNodup
        [("a", (⟨.scan ⟨"a", "t2", "s2"⟩, "s2", false⟩ : CronEntryWithSchedule))] ∧
    mapLookup
        [("a", (⟨.scan ⟨"a", "t2", "s2"⟩, "s2", false⟩ : CronEntryWithSchedule))]
        "a" =
      match ([CronEntry.scan ⟨"a", "t1", "s1"⟩,
          CronEntry.scan ⟨"a", "t2", "s2"⟩].zip [true, false]).reverse.find?
          (fun p => (p : CronEntry × Bool).1.getID == "a") with
      | some (e, ov) => some ⟨e, e.getCronSpec, ov⟩
      | none => none :=
  bulkCreate_parsed_batch_last_wins (fun _ => true)
    [CronEntry.scan ⟨"a", "t1", "s1"⟩, CronEntry.scan ⟨"a", "t2", "s2"⟩]
    [true, false] "a"
    [("a", (⟨.scan ⟨"a", "t2", "s2"⟩, "s2", false⟩ : CronEntryWithSchedule))]
    rfl rfl

theorem scanBulk_error_of_surviving_report (parse : String → Bool) (c : State)
    (saveOk : Bool) (l₁ l₂ : List CronEntry) (b₁ b₂ : List Bool)
    (reB : ReportEntry) (ovB : Bool)
    (hall : ∀ e ∈ l₁ ++ CronEntry.report reB :: l₂, parse e.getCronSpec = true)
    (hlen : l₁.length = b₁.length)
    (hno : ∀ e ∈ l₂, e.getID ≠ reB.teamID) :
    bulkCreate parse c saveOk ScanCronType (l₁ ++ CronEntry.report reB :: l₂)
        (b₁ ++ ovB :: b₂) =
      (.error .malformedEntry, c) := by
  have hzip : (l₁ ++ CronEntry.report reB :: l₂).zip (b₁ ++ ovB :: b₂) =
      l₁.zip b₁ ++ (CronEntry.report reB, ovB) :: l₂.zip b₂ := by
    rw [List.zip_append hlen, List.zip_cons_cons]
  obtain ⟨m, hm⟩ := parseEntries_ok_of_all parse
    ((l₁ ++ CronEntry.report reB :: l₂).zip (b₁ ++ ovB :: b₂)) []
    fun p hp => hall p.1 (List.of_mem_zip hp).1
  have hfind : ((l₁ ++ CronEntry.report reB :: l₂).zip (b₁ ++ ovB :: b₂)).reverse.find?
      (fun p => (p : CronEntry × Bool).1.getID == reB.teamID) =
      some (CronEntry.report reB, ovB) := by
    rw [hzip, List.reverse_append, List.reverse_cons, List.find?_append,
      List.find?_append]
    have h2 : (l₂.zip b₂).reverse.find?
        (fun p => (p : CronEntry × Bool).1.getID == reB.teamID) = none := by
      rw [List.find?_eq_none]
      intro x hx
      have hx1 : x.1 ∈ l₂ := (List.of_mem_zip (List.mem_reverse.mp hx)).1
      simp [hno x.1 hx1]
    rw [h2]
    simp [CronEntry.getID]
  have hlook := parseEntries_lookup parse hm reB.teamID
  rw [hfind] at hlook
  have hmem := mem_of_mapLookup_eq_some hlook
  have herr := scanBulkLoop_error_of_report_mem c.config hmem rfl c.scanEntries []
  simp [bulkCreate, hm, scanBulkCreate, herr]

theorem reportBulk_error_of_surviving_scan (parse : String → Bool) (c : State)
    (saveOk : Bool) (r₁ r₂ : List CronEntry) (d₁ d₂ : List Bool)
    (seB : ScanEntry) (ovB : Bool)
    (hall : ∀ e ∈ r₁ ++ CronEntry.scan seB :: r₂, parse e.getCronSpec = true)
    (hlen : r₁.length = d₁.length)
    (hno : ∀ e ∈ r₂, e.getID ≠ seB.programID) :
    bulkCreate parse c saveOk ReportCronType (r₁ ++ CronEntry.scan seB :: r₂)
        (d₁ ++ ovB :: d₂) =
      (.error .malformedEntry, c) := by
  have hzip : (r₁ ++ CronEntry.scan seB :: r₂).zip (d₁ ++ ovB :: d₂) =
      r₁.zip d₁ ++ (CronEntry.scan seB, ovB) :: r₂.zip d₂ := by
    rw [List.zip_append hlen, List.zip_cons_cons]
  obtain ⟨m, hm⟩ := parseEntries_ok_of_all parse
    ((r₁ ++ CronEntry.scan seB :: r₂).zip (d₁ ++ ovB :: d₂)) []
    fun p hp => hall p.1 (List.of_mem_zip hp).1
  have hfind : ((r₁ ++ CronEntry.scan seB :: r₂).zip (d₁ ++ ovB :: d₂)).reverse.find?
      (fun p => (p : CronEntry × Bool).1.getID == seB.programID) =
      some (CronEntry.scan seB, ovB) := by
    rw [hzip, List.reverse_append, List.reverse_cons, List.find?_append,
      List.find?_append]
    have h2 : (r₂.zip d₂).reverse.find?
        (fun p => (p : CronEntry × Bool).1.getID == seB.programID) = none := by
      rw [List.find?_eq_none]
      intro x hx
      have hx1 : x.1 ∈ r₂ := (List.of_mem_zip (List.mem_reverse.mp hx)).1
      simp [hno x.1 hx1]
    rw [h2]
    simp [CronEntry.getID]
  have hlook := parseEntries_lookup parse hm seB.programID
  rw [hfind] at hlook
  have hmem := mem_of_mapLookup_eq_some hlook
  have herr := reportBulkLoop_error_of_scan_mem c.config hmem rfl c.reportEntries []
  simp [bulkCreate, hm, reportBulkCreate, herr, reportCronType_ne_scanCronType]

/-- C9 counterexample: a Scan-tagged `BulkCreate` batch CONTAINS a
wrong-variant (report) entry, yet the call succeeds and mutates the
table: the later scan entry with the same id replaces the report entry
in the id-keyed parse phase, so the mismatch is never detected. -/
theorem variant_mismatch_counterexample :
    (bulkCreate (fun _ => true) (newCrontinuous ⟨false, [], false, []⟩) true
        ScanCronType [.report ⟨"a", "s"⟩, .scan ⟨"a", "t", "s"⟩] [true, true]).1 =
      .ok () ∧
    (bulkCreate (fun _ => true) (newCrontinuous ⟨false, [], false, []⟩) true
        ScanCronType [.report ⟨"a", "s"⟩, .scan ⟨"a", "t", "s"⟩]
        [true, true]).2.scanEntries =
      [("a", ⟨"a", "t", "s"⟩)] :=
  ⟨rfl, rfl⟩

/-- C9 (amended): with parsing specs, a wrong-variant entry makes
`SaveEntry` fail with the malformed-entry error and no side effects; a
wrong-variant entry in a `BulkCreate` batch does the same PROVIDED no
later batch item carries the same id (otherwise the id-keyed parse
phase replaces it before the variant check runs). -/
theorem variant_mismatch_rejected (parse : String → Bool) (c : State)
    (saveOk : Bool) (seW : ScanEntry) (reW : ReportEntry)
    (l₁ l₂ r₁ r₂ : List CronEntry) (b₁ b₂ d₁ d₂ : List Bool)
    (reB : ReportEntry) (seB : ScanEntry) (ovB ovB' : Bool)
    (hpr : parse reW.cronSpec = true)
    (hps : parse seW.cronSpec = true)
    (hallS : ∀ e ∈ l₁ ++ CronEntry.report reB :: l₂, parse e.getCronSpec = true)
    (hlenS : l₁.length = b₁.length)
    (hnoS : ∀ e ∈ l₂, e.getID ≠ reB.teamID)
    (hallR : ∀ e ∈ r₁ ++ CronEntry.scan seB :: r₂, parse e.getCronSpec = true)
    (hlenR : r₁.length = d₁.length)
    (hnoR : ∀ e ∈ r₂, e.getID ≠ seB.programID) :
    saveEntry parse c saveOk ScanCronType (.report reW) =
      (.error .malformedEntry, c) ∧
    saveEntry parse c saveOk ReportCronType (.scan seW) =
      (.error .malformedEntry, c) ∧
    bulkCreate parse c saveOk ScanCronType (l₁ ++ CronEntry.report reB :: l₂)
        (b₁ ++ ovB :: b₂) =
      (.error .malformedEntry, c) ∧
    bulkCreate parse c saveOk ReportCronType (r₁ ++ CronEntry.scan seB :: r₂)
        (d₁ ++ ovB' :: d₂) =
      (.error .malformedEntry, c) := by
  refine ⟨?_, ?_, ?_, ?_⟩
  · simp [saveEntry, saveScanEntry, CronEntry.getCronSpec, hpr]
  · simp [saveEntry, saveReportEntry, CronEntry.getCronSpec, hps,
      reportCronType_ne_scanCronType]
  · exact scanBulk_error_of_surviving_report parse c saveOk l₁ l₂ b₁ b₂ reB ovB
      hallS hlenS hnoS
  · exact reportBulk_error_of_surviving_scan parse c saveOk r₁ r₂ d₁ d₂ seB ovB'
      hallR hlenR hnoR

/-- Witness for C9 (amended): one-element batches holding only the
mismatched entry, on a fresh service. -/
theorem variant_mismatch_rejected_witness :
    saveEntry (fun _ => true) (newCrontinuous ⟨false, [], false, []⟩) true
        ScanCronType (.report ⟨"t1", "s"⟩) =
      (.error .malformedEntry, newCrontinuous ⟨false, [], false, []⟩) ∧
    saveEntry (fun _ => true) (newCrontinuous ⟨false, [], false, []⟩) true
        ReportCronType (.scan ⟨"p1", "t1", "s"⟩) =
      (.error .malformedEntry, newCrontinuous ⟨false, [], false, []⟩) ∧
    bulkCreate (fun _ => true) (newCrontinuous ⟨false, [], false, []⟩) true
        ScanCronType ([] ++ CronEntry.report ⟨"t1", "s"⟩ :: [])
        ([] ++ true :: []) =
      (.error .malformedEntry, newCrontinuous ⟨false, [], false, []⟩) ∧
    bulkCreate (fun _ => true) (newCrontinuous ⟨false, [], false, []⟩) true
        ReportCronType ([] ++ CronEntry.scan ⟨"p1", "t1", "s"⟩ :: [])
        ([] ++ true :: []) =
      (.error .malformedEntry, newCrontinuous ⟨false, [], false, []⟩) :=
  variant_mismatch_rejected (fun _ => true)
    (newCrontinuous ⟨false, [], false, []⟩) true ⟨"p1", "t1", "s"⟩ ⟨"t1", "s"⟩
    [] [] [] [] [] [] [] [] ⟨"t1", "s"⟩ ⟨"p1", "t1", "s"⟩ true true
    rfl rfl (by simp) rfl (by simp) (by simp) rfl (by simp)

/-! ## Per-item overwrite semantics of the bulk loops -/

theorem mapLookup_eq_none_of_not_mem_keys {α : Type} {m : List (String × α)}
    {k : String} (h : k ∉ m.map Prod.fst) : mapLookup m k = none := by
  induction m with
  | nil => rfl
  | cons p rest ih =>
    obtain ⟨k₀, v₀⟩ := p
    simp only [List.map_cons, List.mem_cons] at h
    push_neg at h
    have hne : ¬ k₀ = k := fun hq => h.1 (Eq.symm hq)
    simp only [mapLookup, if_neg hne]
    exact ih h.2

theorem parseEntries_scan_key_coherent (parse : String → Bool)
    {entries : List CronEntry} {ovs : List Bool}
    {m : List (String × CronEntryWithSchedule)}
    (hm : parseEntries parse (entries.zip ovs) [] = .ok m) :
    ∀ p ∈ m, ∀ s : ScanEntry,
      (p : String × CronEntryWithSchedule).2.entry = .scan s →
      s.programID = p.1 := by
  intro p hp s hs
  rcases parseEntries_mem parse hm p hp with hacc | ⟨q, _, rfl⟩
  · simp at hacc
  · simp only at hs
    simp [hs, CronEntry.getID]

theorem parseEntries_report_key_coherent (parse : String → Bool)
    {entries : List CronEntry} {ovs : List Bool}
    {m : List (String × CronEntryWithSchedule)}
    (hm : parseEntries parse (entries.zip ovs) [] = .ok m) :
    ∀ p ∈ m, ∀ r : ReportEntry,
      (p : String × CronEntryWithSchedule).2.entry = .report r →
      r.teamID = p.1 := by
  intro p hp r hr
  rcases parseEntries_mem parse hm p hp with hacc | ⟨q, _, rfl⟩
  · simp at hacc
  · simp only at hr
    simp [hr, CronEntry.getID]

theorem scanBulkLoop_lookup_miss (cfg : Config) :
    ∀ {l : List (String × CronEntryWithSchedule)}
    {current : List (String × ScanEntry)} {jobs : List CronJobSchedule}
    {res : List (String × ScanEntry) × List CronJobSchedule} {id : String},
    (∀ p ∈ l, ∀ s : ScanEntry,
      (p : String × CronEntryWithSchedule).2.entry = .scan s →
      s.programID = p.1) →
    mapLookup l id = none →
    scanBulkLoop cfg l current jobs = .ok res →
    mapLookup res.1 id = mapLookup current id := by
  intro l
  induction l with
  | nil =>
    intro current jobs res id _ _ h
    simp only [scanBulkLoop] at h
    injection h with h
    subst h
    rfl
  | cons p rest ih =>
    intro current jobs res id hcoh hv h
    obtain ⟨k, e⟩ := p
    have hcoh' := fun q hq => hcoh q (List.mem_cons_of_mem _ hq)
    cases he : e.entry with
    | report r => simp only [scanBulkLoop, he] at h; simp at h
    | scan s =>
      have hk : s.programID = k :=
        hcoh (k, e) (List.mem_cons_self _ _) s (by simpa using he)
      simp only [scanBulkLoop, he] at h
      simp only [mapLookup] at hv
      have hkid : ¬ k = id := by
        intro hkid
        rw [if_pos hkid] at hv
        exact Option.noConfusion hv
      rw [if_neg hkid] at hv
      cases h1 : (mapLookup current s.programID).isSome && !e.overwriteEntry with
      | true =>
        rw [if_pos h1] at h
        exact ih hcoh' hv h
      | false =>
        rw [if_neg (by simp [h1])] at h
        have hrec : ∃ j', scanBulkLoop cfg rest
            (mapInsert current s.programID s) j' = .ok res := by
          cases h2 : isTeamWhitelisted cfg ScanCronType s.teamID with
          | true => rw [if_pos h2] at h; exact ⟨_, h⟩
          | false => rw [if_neg (by simp [h2])] at h; exact ⟨_, h⟩
        obtain ⟨j', h'⟩ := hrec
        have hins : mapLookup (mapInsert current s.programID s) id =
            mapLookup current id := by
          rw [mapLookup_insert, if_neg fun hpid => hkid (hk.symm.trans hpid)]
        rw [← hins]
        exact ih hcoh' hv h'

theorem scanBulkLoop_lookup_hit (cfg : Config) :
    ∀ {l : List (String × CronEntryWithSchedule)}
    {current : List (String × ScanEntry)} {jobs : List CronJobSchedule}
    {res : List (String × ScanEntry) × List CronJobSchedule} {id : String}
    {v : CronEntryWithSchedule} {s : ScanEntry},
    (∀ p ∈ l, ∀ s' : ScanEntry,
      (p : String × CronEntryWithSchedule).2.entry = .scan s' →
      s'.programID = p.1) →
    mapKeysNodup l →
    mapLookup l id = some v →
    v.entry = .scan s →
    scanBulkLoop cfg l current jobs = .ok res →
    mapLookup res.1 id =
      if (mapLookup current id).isSome && !v.overwriteEntry then
        mapLookup current id
      else some s := by
  intro l
  induction l with
  | nil =>
    intro current jobs res id v s _ _ hv _ _
    simp [mapLookup] at hv
  | cons p rest ih =>
    intro current jobs res id v s hcoh hnodup hv hvs h
    obtain ⟨k, e⟩ := p
    simp only [mapKeysNodup, List.map_cons, List.nodup_cons] at hnodup
    obtain ⟨hknotin, hnodup'⟩ := hnodup
    have hnodup'' : mapKeysNodup rest := hnodup'
    have hcoh' := fun q hq => hcoh q (List.mem_cons_of_mem _ hq)
    cases he : e.entry with
    | report r => simp only [scanBulkLoop, he] at h; simp at h
    | scan s' =>
      have hk : s'.programID = k :=
        hcoh (k, e) (List.mem_cons_self _ _) s' (by simpa using he)
      simp only [scanBulkLoop, he] at h
      simp only [mapLookup] at hv
      by_cases hkid : k = id
      · rw [if_pos hkid] at hv
        injection hv with hv
        subst hv
        have hss : s' = s := by
          rw [he] at hvs
          injection hvs
        subst hss
        subst hkid
        have hrestnone : mapLookup rest k = none :=
          mapLookup_eq_none_of_not_mem_keys hknotin
        cases h1 : (mapLookup current s'.programID).isSome && !e.overwriteEntry with
        | true =>
          rw [if_pos h1] at h
          rw [hk] at h1
          rw [if_pos h1]
          exact scanBulkLoop_lookup_miss cfg hcoh' hrestnone h
        | false =>
          rw [if_neg (by simp [h1])] at h
          have hrec : ∃ j', scanBulkLoop cfg rest
              (mapInsert current s'.programID s') j' = .ok res := by
            cases h2 : isTeamWhitelisted cfg ScanCronType s'.teamID with
            | true => rw [if_pos h2] at h; exact ⟨_, h⟩
            | false => rw [if_neg (by simp [h2])] at h; exact ⟨_, h⟩
          obtain ⟨j', h'⟩ := hrec
          rw [hk] at h1
          rw [if_neg (by simp [h1])]
          have hmiss := scanBulkLoop_lookup_miss cfg hcoh' hrestnone h'
          rw [hmiss, mapLookup_insert, if_pos hk]
      · rw [if_neg hkid] at hv
        cases h1 : (mapLookup current s'.programID).isSome && !e.overwriteEntry with
        | true =>
          rw [if_pos h1] at h
          exact ih hcoh' hnodup'' hv hvs h
        | false =>
          rw [if_neg (by simp [h1])] at h
          have hrec : ∃ j', scanBulkLoop cfg rest
              (mapInsert current s'.programID s') j' = .ok res := by
            cases h2 : isTeamWhitelisted cfg ScanCronType s'.teamID with
            | true => rw [if_pos h2] at h; exact ⟨_, h⟩
            | false => rw [if_neg (by simp [h2])] at h; exact ⟨_, h⟩
          obtain ⟨j', h'⟩ := hrec
          have hins : mapLookup (mapInsert current s'.programID s') id =
              mapLookup current id := by
            rw [mapLookup_insert, if_neg fun hpid => hkid (hk.symm.trans hpid)]
          have hres := ih hcoh' hnodup'' hv hvs h'
          rw [hins] at hres
          exact hres

theorem reportBulkLoop_lookup_miss (cfg : Config) :
    ∀ {l : List (String × CronEntryWithSchedule)}
    {current : List (String × ReportEntry)} {jobs : List CronJobSchedule}
    {res : List (String × ReportEntry) × List CronJobSchedule} {id : String},
    (∀ p ∈ l, ∀ s : ReportEntry,
      (p : String × CronEntryWithSchedule).2.entry = .report s →
      s.teamID = p.1) →
    mapLookup l id = none →
    reportBulkLoop cfg l current jobs = .ok res →
    mapLookup res.1 id = mapLookup current id := by
  intro l
  induction l with
  | nil =>
    intro current jobs res id _ _ h
    simp only [reportBulkLoop] at h
    injection h with h
    subst h
    rfl
  | cons p rest ih =>
    intro current jobs res id hcoh hv h
    obtain ⟨k, e⟩ := p
    have hcoh' := fun q hq => hcoh q (List.mem_cons_of_mem _ hq)
    cases he : e.entry with
    | scan r => simp only [reportBulkLoop, he] at h; simp at h
    | report s =>
      have hk : s.teamID = k :=
        hcoh (k, e) (List.mem_cons_self _ _) s (by simpa using he)
      simp only [reportBulkLoop, he] at h
      simp only [mapLookup] at hv
      have hkid : ¬ k = id := by
        intro hkid
        rw [if_pos hkid] at hv
        exact Option.noConfusion hv
      rw [if_neg hkid] at hv
      cases h1 : (mapLookup current s.teamID).isSome && !e.overwriteEntry with
      | true =>
        rw [if_pos h1] at h
        exact ih hcoh' hv h
      | false =>
        rw [if_neg (by simp [h1])] at h
        have hrec : ∃ j', reportBulkLoop cfg rest
            (mapInsert current s.teamID s) j' = .ok res := by
          cases h2 : isTeamWhitelisted cfg ReportCronType s.teamID with
          | true => rw [if_pos h2] at h; exact ⟨_, h⟩
          | false => rw [if_neg (by simp [h2])] at h; exact ⟨_, h⟩
        obtain ⟨j', h'⟩ := hrec
        have hins : mapLookup (mapInsert current s.teamID s) id =
            mapLookup current id := by
          rw [mapLookup_insert, if_neg fun hpid => hkid (hk.symm.trans hpid)]
        rw [← hins]
        exact ih hcoh' hv h'

theorem reportBulkLoop_lookup_hit (cfg : Config) :
    ∀ {l : List (String × CronEntryWithSchedule)}
    {current : List (String × ReportEntry)} {jobs : List CronJobSchedule}
    {res : List (String × ReportEntry) × List CronJobSchedule} {id : String}
    {v : CronEntryWithSchedule} {s : ReportEntry},
    (∀ p ∈ l, ∀ s' : ReportEntry,
      (p : String × CronEntryWithSchedule).2.entry = .report s' →
      s'.teamID = p.1) →
    mapKeysNodup l →
    mapLookup l id = some v →
    v.entry = .report s →
    reportBulkLoop cfg l current jobs = .ok res →
    mapLookup res.1 id =
      if (mapLookup current id).isSome && !v.overwriteEntry then
        mapLookup current id
      else some s := by
  intro l
  induction l with
  | nil =>
    intro current jobs res id v s _ _ hv _ _
    simp [mapLookup] at hv
  | cons p rest ih =>
    intro current jobs res id v s hcoh hnodup hv hvs h
    obtain ⟨k, e⟩ := p
    simp only [mapKeysNodup, List.map_cons, List.nodup_cons] at hnodup
    obtain ⟨hknotin, hnodup'⟩ := hnodup
    have hnodup'' : mapKeysNodup rest := hnodup'
    have hcoh' := fun q hq => hcoh q (List.mem_cons_of_mem _ hq)
    cases he : e.entry with
    | scan r => simp only [reportBulkLoop, he] at h; simp at h
    | report s' =>
      have hk : s'.teamID = k :=
        hcoh (k, e) (List.mem_cons_self _ _) s' (by simpa using he)
      simp only [reportBulkLoop, he] at h
      simp only [mapLookup] at hv
      by_cases hkid : k = id
      · rw [if_pos hkid] at hv
        injection hv with hv
        subst hv
        have hss : s' = s := by
          rw [he] at hvs
          injection hvs
        subst hss
        subst hkid
        have hrestnone : mapLookup rest k = none :=
          mapLookup_eq_none_of_not_mem_keys hknotin
        cases h1 : (mapLookup current s'.teamID).isSome && !e.overwriteEntry with
        | true =>
          rw [if_pos h1] at h
          rw [hk] at h1
          rw [if_pos h1]
          exact reportBulkLoop_lookup_miss cfg hcoh' hrestnone h
        | false =>
          rw [if_neg (by simp [h1])] at h
          have hrec : ∃ j', reportBulkLoop cfg rest
              (mapInsert current s'.teamID s') j' = .ok res := by
            cases h2 : isTeamWhitelisted cfg ReportCronType s'.teamID with
            | true => rw [if_pos h2] at h; exact ⟨_, h⟩
            | false => rw [if_neg (by simp [h2])] at h; exact ⟨_, h⟩
          obtain ⟨j', h'⟩ := hrec
          rw [hk] at h1
          rw [if_neg (by simp [h1])]
          have hmiss := reportBulkLoop_lookup_miss cfg hcoh' hrestnone h'
          rw [hmiss, mapLookup_insert, if_pos hk]
      · rw [if_neg hkid] at hv
        cases h1 : (mapLookup current s'.teamID).isSome && !e.overwriteEntry with
        | true =>
          rw [if_pos h1] at h
          exact ih hcoh' hnodup'' hv hvs h
        | false =>
          rw [if_neg (by simp [h1])] at h
          have hrec : ∃ j', reportBulkLoop cfg rest
              (mapInsert current s'.teamID s') j' = .ok res := by
            cases h2 : isTeamWhitelisted cfg ReportCronType s'.teamID with
            | true => rw [if_pos h2] at h; exact ⟨_, h⟩
            | false => rw [if_neg (by simp [h2])] at h; exact ⟨_, h⟩
          obtain ⟨j', h'⟩ := hrec
          have hins : mapLookup (mapInsert current s'.teamID s') id =
              mapLookup current id := by
            rw [mapLookup_insert, if_neg fun hpid => hkid (hk.symm.trans hpid)]
          have hres := ih hcoh' hnodup'' hv hvs h'
          rw [hins] at hres
          exact hres

theorem bulkCreate_scanEntries_of_loop (parse : String → Bool) (c : State)
    (saveOk : Bool) (entries : List CronEntry) (ovs : List Bool)
    {m : List (String × CronEntryWithSchedule)}
    {cur : List (String × ScanEntry)} {jobs : List CronJobSchedule}
    (hm : parseEntries parse (entries.zip ovs) [] = .ok m)
    (hloop : scanBulkLoop c.config m c.scanEntries [] = .ok (cur, jobs)) :
    (bulkCreate parse c saveOk ScanCronType entries ovs).2.scanEntries = cur := by
  cases saveOk <;> simp [bulkCreate, hm, scanBulkCreate, hloop]

theorem bulkCreate_reportEntries_of_loop (parse : String → Bool) (c : State)
    (saveOk : Bool) (entries : List CronEntry) (ovs : List Bool)
    {m : List (String × CronEntryWithSchedule)}
    {cur : List (String × ReportEntry)} {jobs : List CronJobSchedule}
    (hm : parseEntries parse (entries.zip ovs) [] = .ok m)
    (hloop : reportBulkLoop c.config m c.reportEntries [] = .ok (cur, jobs)) :
    (bulkCreate parse c saveOk ReportCronType entries ovs).2.reportEntries = cur := by
  cases saveOk <;>
    simp [bulkCreate, hm, reportBulkCreate, hloop, reportCronType_ne_scanCronType]

theorem scanBulk_overwrite_item (parse : String → Bool) (c : State) (saveOk : Bool)
    (l₁ l₂ : List CronEntry) (b₁ b₂ : List Bool) (se : ScanEntry) (ov : Bool)
    (hlen₁ : l₁.length = b₁.length)
    (hall : ∀ e ∈ l₁ ++ CronEntry.scan se :: l₂, parse e.getCronSpec = true)
    (hscan : ∀ e ∈ l₁ ++ CronEntry.scan se :: l₂, ∃ s, e = CronEntry.scan s)
    (hno : ∀ e ∈ l₂, e.getID ≠ se.programID) :
    mapLookup (bulkCreate parse c saveOk ScanCronType
        (l₁ ++ CronEntry.scan se :: l₂) (b₁ ++ ov :: b₂)).2.scanEntries
      se.programID =
      match mapLookup c.scanEntries se.programID with
      | some old => if ov then some se else some old
      | none => some se := by
  have hzip : (l₁ ++ CronEntry.scan se :: l₂).zip (b₁ ++ ov :: b₂) =
      l₁.zip b₁ ++ (CronEntry.scan se, ov) :: l₂.zip b₂ := by
    rw [List.zip_append hlen₁, List.zip_cons_cons]
  obtain ⟨m, hm⟩ := parseEntries_ok_of_all parse
    ((l₁ ++ CronEntry.scan se :: l₂).zip (b₁ ++ ov :: b₂)) []
    fun p hp => hall p.1 (List.of_mem_zip hp).1
  have hfind : ((l₁ ++ CronEntry.scan se :: l₂).zip (b₁ ++ ov :: b₂)).reverse.find?
      (fun p => (p : CronEntry × Bool).1.getID == se.programID) =
      some (CronEntry.scan se, ov) := by
    rw [hzip, List.reverse_append, List.reverse_cons, List.find?_append,
      List.find?_append]
    have h2 : (l₂.zip b₂).reverse.find?
        (fun p => (p : CronEntry × Bool).1.getID == se.programID) = none := by
      rw [List.find?_eq_none]
      intro x hx
      have hx1 : x.1 ∈ l₂ := (List.of_mem_zip (List.mem_reverse.mp hx)).1
      simp [hno x.1 hx1]
    rw [h2]
    simp [CronEntry.getID]
  have hlookm : mapLookup m se.programID =
      some ⟨CronEntry.scan se, (CronEntry.scan se).getCronSpec, ov⟩ := by
    rw [parseEntries_lookup parse hm se.programID, hfind]
  obtain ⟨⟨cur, jobs⟩, hloop⟩ := scanBulkLoop_ok c.config
    (parseEntries_values_scan parse hm hscan) c.scanEntries []
  have hhit := scanBulkLoop_lookup_hit c.config
    (parseEntries_scan_key_coherent parse hm)
    (parseEntries_keysNodup parse (by simp [mapKeysNodup]) hm)
    hlookm rfl hloop
  rw [bulkCreate_scanEntries_of_loop parse c saveOk _ _ hm hloop]
  simp only at hhit
  rw [hhit]
  cases hcurv : mapLookup c.scanEntries se.programID with
  | none => simp
  | some old => cases ov <;> simp

theorem reportBulk_overwrite_item (parse : String → Bool) (c : State) (saveOk : Bool)
    (r₁ r₂ : List CronEntry) (d₁ d₂ : List Bool) (re : ReportEntry) (ov : Bool)
    (hlen₁ : r₁.length = d₁.length)
    (hall : ∀ e ∈ r₁ ++ CronEntry.report re :: r₂, parse e.getCronSpec = true)
    (hrep : ∀ e ∈ r₁ ++ CronEntry.report re :: r₂, ∃ r, e = CronEntry.report r)
    (hno : ∀ e ∈ r₂, e.getID ≠ re.teamID) :
    mapLookup (bulkCreate parse c saveOk ReportCronType
        (r₁ ++ CronEntry.report re :: r₂) (d₁ ++ ov :: d₂)).2.reportEntries
      re.teamID =
      match mapLookup c.reportEntries re.teamID with
      | some old => if ov then some re else some old
      | none => some re := by
  have hzip : (r₁ ++ CronEntry.report re :: r₂).zip (d₁ ++ ov :: d₂) =
      r₁.zip d₁ ++ (CronEntry.report re, ov) :: r₂.zip d₂ := by
    rw [List.zip_append hlen₁, List.zip_cons_cons]
  obtain ⟨m, hm⟩ := parseEntries_ok_of_all parse
    ((r₁ ++ CronEntry.report re :: r₂).zip (d₁ ++ ov :: d₂)) []
    fun p hp => hall p.1 (List.of_mem_zip hp).1
  have hfind : ((r₁ ++ CronEntry.report re :: r₂).zip (d₁ ++ ov :: d₂)).reverse.find?
      (fun p => (p : CronEntry × Bool).1.getID == re.teamID) =
      some (CronEntry.report re, ov) := by
    rw [hzip, List.reverse_append, List.reverse_cons, List.find?_append,
      List.find?_append]
    have h2 : (r₂.zip d₂).reverse.find?
        (fun p => (p : CronEntry × Bool).1.getID == re.teamID) = none := by
      rw [List.find?_eq_none]
      intro x hx
      have hx1 : x.1 ∈ r₂ := (List.of_mem_zip (List.mem_reverse.mp hx)).1
      simp [hno x.1 hx1]
    rw [h2]
    simp [CronEntry.getID]
  have hlookm : mapLookup m re.teamID =
      some ⟨CronEntry.report re, (CronEntry.report re).getCronSpec, ov⟩ := by
    rw [parseEntries_lookup parse hm re.teamID, hfind]
  obtain ⟨⟨cur, jobs⟩, hloop⟩ := reportBulkLoop_ok c.config
    (parseEntries_values_report parse hm hrep) c.reportEntries []
  have hhit := reportBulkLoop_lookup_hit c.config
    (parseEntries_report_key_coherent parse hm)
    (parseEntries_keysNodup parse (by simp [mapKeysNodup]) hm)
    hlookm rfl hloop
  rw [bulkCreate_reportEntries_of_loop parse c saveOk _ _ hm hloop]
  simp only at hhit
  rw [hhit]
  cases hcurv : mapLookup c.reportEntries re.teamID with
  | none => simp
  | some old => cases ov <;> simp

/-- C3 counterexample: a batch holds two items with the same id "a",
the first with overwrite = true, the second with overwrite = false, and
"a" pre-exists in the table.  The claim promises that the first item
(flag true) replaces the stored entry, but the id-keyed parse phase
keeps only the last occurrence (flag false), so the stored entry stays
"old" — the overwrite = true item of the batch replaces nothing. -/
theorem bulkCreate_overwrite_counterexample :
    mapLookup (bulkCreate (fun _ => true)
        ⟨⟨false, [], false, []⟩, [("a", ⟨"a", "t", "old"⟩)], [],
          [("a", ⟨"a", "t", "old"⟩)], [], []⟩ true ScanCronType
        [.scan ⟨"a", "t", "new1"⟩, .scan ⟨"a", "t", "new2"⟩]
        [true, false]).2.scanEntries "a" =
      some ⟨"a", "t", "old"⟩ ∧
    (⟨"a", "t", "old"⟩ : ScanEntry) ≠ ⟨"a", "t", "new1"⟩ :=
  ⟨rfl, by decide⟩

/-- C3 (amended): for a `BulkCreate` batch item that is the LAST
occurrence of its id in the batch (earlier same-id items are discarded
by the id-keyed parse phase), in a well-formed batch (specs parse,
variants match): if the id already exists in the table, overwrite = false
leaves the stored entry unchanged and overwrite = true replaces it with
the incoming entry (an absent id is inserted either way); this holds for
each such item of the batch independently, for both cron types. -/
theorem bulkCreate_overwrite_per_item (parse : String → Bool) (c : State)
    (saveOk : Bool) (l₁ l₂ r₁ r₂ : List CronEntry) (b₁ b₂ d₁ d₂ : List Bool)
    (se : ScanEntry) (re : ReportEntry) (ov ov' : Bool)
    (hlenS : l₁.length = b₁.length)
    (hallS : ∀ e ∈ l₁ ++ CronEntry.scan se :: l₂, parse e.getCronSpec = true)
    (hscanS : ∀ e ∈ l₁ ++ CronEntry.scan se :: l₂, ∃ s, e = CronEntry.scan s)
    (hnoS : ∀ e ∈ l₂, e.getID ≠ se.programID)
    (hlenR : r₁.length = d₁.length)
    (hallR : ∀ e ∈ r₁ ++ CronEntry.report re :: r₂, parse e.getCronSpec = true)
    (hrepR : ∀ e ∈ r₁ ++ CronEntry.report re :: r₂, ∃ r, e = CronEntry.report r)
    (hnoR : ∀ e ∈ r₂, e.getID ≠ re.teamID) :
    mapLookup (bulkCreate parse c saveOk ScanCronType
        (l₁ ++ CronEntry.scan se :: l₂) (b₁ ++ ov :: b₂)).2.scanEntries
      se.programID =
      (match mapLookup c.scanEntries se.programID with
      | some old => if ov then some se else some old
      | none => some se) ∧
    mapLookup (bulkCreate parse c saveOk ReportCronType
        (r₁ ++ CronEntry.report re :: r₂) (d₁ ++ ov' :: d₂)).2.reportEntries
      re.teamID =
      (match mapLookup c.reportEntries re.teamID with
      | some old => if ov' then some re else some old
      | none => some re) :=
  ⟨scanBulk_overwrite_item parse c saveOk l₁ l₂ b₁ b₂ se ov hlenS hallS hscanS hnoS,
   reportBulk_overwrite_item parse c saveOk r₁ r₂ d₁ d₂ re ov' hlenR hallR hrepR hnoR⟩

/-- Witness for C3 (amended): singleton batches over a service whose
tables already hold the ids, with overwrite = false on the scan side
(stored entry kept) and overwrite = true on the report side (stored
entry replaced). -/
theorem bulkCreate_overwrite_per_item_witness :
    mapLookup ((bulkCreate (fun _ => true)
        ⟨⟨false, [], false, []⟩, [("a", ⟨"a", "t", "old"⟩)],
          [("t1", ⟨"t1", "oldr"⟩)], [("a", ⟨"a", "t", "old"⟩)],
          [("t1", ⟨"t1", "oldr"⟩)], []⟩ true ScanCronType
        ([] ++ CronEntry.scan ⟨"a", "t", "new"⟩ :: [])
        ([] ++ false :: [])).2.scanEntries) "a" =
      (match mapLookup [("a", (⟨"a", "t", "old"⟩ : ScanEntry))] "a" with
      | some old => if false then some ⟨"a", "t", "new"⟩ else some old
      | none => some ⟨"a", "t", "new"⟩) ∧
    mapLookup ((bulkCreate (fun _ => true)
        ⟨⟨false, [], false, []⟩, [("a", ⟨"a", "t", "old"⟩)],
          [("t1", ⟨"t1", "oldr"⟩)], [("a", ⟨"a", "t", "old"⟩)],
          [("t1", ⟨"t1", "oldr"⟩)], []⟩ true ReportCronType
        ([] ++ CronEntry.report ⟨"t1", "newr"⟩ :: [])
        ([] ++ true :: [])).2.reportEntries) "t1" =
      (match mapLookup [("t1", (⟨"t1", "oldr"⟩ : ReportEntry))] "t1" with
      | some old => if true then some ⟨"t1", "newr"⟩ else some old
      | none => some ⟨"t1", "newr"⟩) :=
  bulkCreate_overwrite_per_item (fun _ => true)
    ⟨⟨false, [], false, []⟩, [("a", ⟨"a", "t", "old"⟩)],
      [("t1", ⟨"t1", "oldr"⟩)], [("a", ⟨"a", "t", "old"⟩)],
      [("t1", ⟨"t1", "oldr"⟩)], []⟩ true [] [] [] [] [] [] [] []
    ⟨"a", "t", "new"⟩ ⟨"t1", "newr"⟩ false true
    rfl (by simp) (fun e he => by simp at he; exact ⟨_, he⟩) (by simp)
    rfl (by simp) (fun e he => by simp at he; exact ⟨_, he⟩) (by simp)

end Crontinuous
